import Mathlib

/-!
Verification of the SimpleImage Editor.js block tool (`src/dist/index.d.ts`,
implementation half of the file).  The plugin's data model, its
entity-decoding helper, the data getter/setter, the constructor, `save`,
`onPaste`/`onDropHandler`, the paste pattern of `pasteConfig`, the tune
toggling and the render state machine are embedded shallowly below; machine
strings are Lean `String`s and the DOM is a rose tree of elements.
-/

set_option autoImplicit false

/-- The apostrophe character, written by code point. -/
def aposChar : Char := Char.ofNat 39

/-- The one-character apostrophe string (the replacement text for the
entity sequence of code point 39). -/
def apos : String := String.mk [aposChar]

/-- One global literal substitution pass, as performed by a JavaScript
`str.replace(/lit/g, repl)` with a purely literal pattern: scan left to
right, replace every non-overlapping occurrence, never rescan replacement
text.  The pattern is `p :: ps`; `fuel` bounds the number of scanning steps
and is instantiated with the length of the subject, which always suffices
(every step consumes at least one subject character). -/
def substFuel (p : Char) (ps repl : List Char) : Nat → List Char → List Char
  | _, [] => []
  | 0, l => l
  | Nat.succ fuel, c :: rest =>
    if (p :: ps).isPrefixOf (c :: rest) then
      repl ++ substFuel p ps repl fuel (rest.drop ps.length)
    else
      c :: substFuel p ps repl fuel rest

/-- JavaScript `s.replace(/pat/g, repl)` for a literal pattern `pat`.
(The empty-pattern case never arises in this development.) -/
def jsReplaceAll (pat repl s : String) : String :=
  match pat.toList with
  | [] => s
  | p :: ps => String.mk (substFuel p ps repl.toList s.toList.length s.toList)

/-- `SimpleImage.decodeHTMLEntities` from the source: a falsy (empty)
string is returned unchanged, otherwise the five fixed global
substitutions are applied in order. -/
def decodeHTMLEntities (s : String) : String :=
  if s = "" then s
  else
    jsReplaceAll "&#039;" apos
      (jsReplaceAll "&quot;" "\""
        (jsReplaceAll "&gt;" ">"
          (jsReplaceAll "&lt;" "<"
            (jsReplaceAll "&amp;" "&" s))))

/-- The tool's input and output data format (`SimpleImageData`).  After
construction all five fields are always present, so the flags are plain
booleans here. -/
structure SimpleImageData where
  url : String
  caption : String
  withBorder : Bool
  withBackground : Bool
  stretched : Bool
deriving DecidableEq, Repr

/-- A record assigned through the `data` setter.  JavaScript object
literals carry only the keys they mention and `Object.assign` merges only
those, so each field is optional: `none` models an absent key. -/
structure DataPatch where
  url : Option String
  caption : Option String
  withBorder : Option Bool
  withBackground : Option Bool
  stretched : Option Bool
deriving DecidableEq, Repr

/-- The `this.CSS` record built in the constructor. -/
structure CSSModel where
  baseClass : String
  loading : String
  input : String
  wrapper : String
  imageHolder : String
  caption : String
deriving DecidableEq, Repr

/-- The nodes cache, reduced to the observable attributes the claims
mention: `none` models a `null` node. -/
structure NodesModel where
  imageHolderClasses : Option (List String)
  imageSrc : Option String
  captionHTML : Option String
deriving DecidableEq, Repr

/-- The tool's state: internally stored data, CSS record, nodes cache and
block index. -/
structure ToolState where
  readOnly : Bool
  blockIndex : Nat
  _data : SimpleImageData
  css : CSSModel
  nodes : NodesModel
deriving DecidableEq, Repr

/-- The `data` getter: returns the internally stored record. -/
def getData (st : ToolState) : SimpleImageData := st._data

/-- The `data` setter: decodes HTML entities in the url when it is truthy,
merges the patch over the stored record (`Object.assign({}, this.data,
data)`), and pushes url/caption into the cached nodes when present. -/
def setData (st : ToolState) (patch : DataPatch) : ToolState :=
  let patch :=
    match patch.url with
    | some u => if u ≠ "" then { patch with url := some (decodeHTMLEntities u) } else patch
    | none => patch
  let nd : SimpleImageData :=
    { url := patch.url.getD st._data.url
      caption := patch.caption.getD st._data.caption
      withBorder := patch.withBorder.getD st._data.withBorder
      withBackground := patch.withBackground.getD st._data.withBackground
      stretched := patch.stretched.getD st._data.stretched }
  { st with
    _data := nd
    nodes := { st.nodes with
      imageSrc := st.nodes.imageSrc.map fun _ => nd.url
      captionHTML := st.nodes.captionHTML.map fun _ => nd.caption } }

/-- The `api.styles` strings handed to the constructor by the host. -/
structure ApiStyles where
  block : String
  loader : String
  input : String
deriving DecidableEq, Repr

/-- The `data` object received at construction.  The interface declares
`url`/`caption` as strings and the flags as optionals, but the constructor
guards every field against `undefined` (`||` and `!== undefined`), so all
five are modelled as optional. -/
structure InputData where
  url : Option String
  caption : Option String
  withBorder : Option Bool
  withBackground : Option Bool
  stretched : Option Bool
deriving DecidableEq, Repr

/-- JavaScript `x || ""` for an optional string. -/
def jsOrEmpty : Option String → String
  | some u => if u ≠ "" then u else ""
  | none => ""

/-- The constructor: stores the API styles into `this.CSS`, sets
`blockIndex` to the current index plus one, nulls the nodes cache, and
assigns the merged initial record through the `data` setter.  The
placeholder `_data` models the JavaScript `undefined` before that
assignment; the setter call passes all five keys, so it is wholly
overwritten. -/
def construct (inp : InputData) (currentBlockIndex : Nat) (styles : ApiStyles)
    (ro : Bool) : ToolState :=
  let st : ToolState :=
    { readOnly := ro
      blockIndex := currentBlockIndex + 1
      _data := { url := "", caption := "", withBorder := false,
                 withBackground := false, stretched := false }
      css := { baseClass := styles.block, loading := styles.loader,
               input := styles.input, wrapper := "cdx-simple-image",
               imageHolder := "cdx-simple-image__picture",
               caption := "cdx-simple-image__caption" }
      nodes := { imageHolderClasses := none, imageSrc := none, captionHTML := none } }
  setData st
    { url := some (jsOrEmpty inp.url)
      caption := some (jsOrEmpty inp.caption)
      withBorder := some (inp.withBorder.getD false)
      withBackground := some (inp.withBackground.getD false)
      stretched := some (inp.stretched.getD false) }

/-- `detail.data` of a `tag` paste event: the pasted element, which may or
may not be an `HTMLImageElement`. -/
inductive JsElement where
  | img (src : String)
  | other
deriving DecidableEq, Repr

/-- A pasted or dropped file, reduced to its name and the data URL a
`FileReader.readAsDataURL` read produces for it. -/
structure FileModel where
  name : String
  dataUrl : String
deriving DecidableEq, Repr

/-- A `PasteEvent` as dispatched by the host: a pasted tag, a pasted text
matching a registered pattern, a pasted/dropped file, or anything else. -/
inductive PasteModelEvent where
  | tag (data : JsElement)
  | pattern (text : String)
  | file (f : FileModel)
  | otherEvent
deriving DecidableEq, Repr

/-- `onDropHandler`: reads the file as a data URL and resolves a record
carrying only `url` (the data URL) and `caption` (the file name).  The
asynchronous `FileReader` completion is modelled as already resolved. -/
def onDropHandler (f : FileModel) : DataPatch :=
  { url := some f.dataUrl
    caption := some f.name
    withBorder := none
    withBackground := none
    stretched := none }

/-- `onPaste`: the `tag` branch (when the pasted node is an image) and the
`pattern` branch assign a url-only record through the `data` setter, the
`file` branch assigns the record resolved by `onDropHandler`; every other
event type falls through the `switch` unchanged. -/
def onPaste (st : ToolState) (ev : PasteModelEvent) : ToolState :=
  match ev with
  | .tag (.img src) =>
    setData st
      { url := some (decodeHTMLEntities src), caption := none,
        withBorder := none, withBackground := none, stretched := none }
  | .tag .other => st
  | .pattern text =>
    setData st
      { url := some (decodeHTMLEntities text), caption := none,
        withBorder := none, withBackground := none, stretched := none }
  | .file f => setData st (onDropHandler f)
  | .otherEvent => st

/-- Dynamic flag read `this.data[tune]`, restricted to the three tune
names used by the tool. -/
def getFlag (d : SimpleImageData) (t : String) : Bool :=
  if t = "withBorder" then d.withBorder
  else if t = "withBackground" then d.withBackground
  else if t = "stretched" then d.stretched
  else false

/-- Dynamic flag write `this.data[tune] = b` (a direct property write on
the stored record, not a pass through the setter). -/
def setFlag (d : SimpleImageData) (t : String) (b : Bool) : SimpleImageData :=
  if t = "withBorder" then { d with withBorder := b }
  else if t = "withBackground" then { d with withBackground := b }
  else if t = "stretched" then { d with stretched := b }
  else d

/-- The camel-case to kebab-case conversion
`name.replace(/([A-Z])/g, g => -lower)`. -/
def camelToKebab (s : String) : String :=
  String.mk (s.toList.flatMap fun c => if c.isUpper then ['-', c.toLower] else [c])

/-- `classList.toggle(token, force)`: adds the token (once, at the end)
when `force` is true and removes it when `force` is false. -/
def toggleClass (cs : List String) (c : String) (force : Bool) : List String :=
  if force then (if c ∈ cs then cs else cs ++ [c]) else cs.filter (fun x => x ≠ c)

/-- The names of the three tunes, in the order of the `tunes` array. -/
def tuneNames : List String := ["withBorder", "stretched", "withBackground"]

/-- One iteration of the `forEach` in `_acceptTuneView`: toggle the
modifier class on the image holder (when that node exists) by the current
flag. -/
def applyTuneView (st : ToolState) (name : String) : ToolState :=
  match st.nodes.imageHolderClasses with
  | some cs =>
    let cs' := toggleClass cs (st.css.imageHolder ++ "--" ++ camelToKebab name)
      (getFlag st._data name)
    { st with nodes := { st.nodes with imageHolderClasses := some cs' } }
  | none => st

/-- The `forEach` of `_acceptTuneView`, also collecting the
`api.blocks.stretchBlock(blockIndex, stretched)` calls it makes. -/
def acceptTuneViewGo : ToolState → List String → ToolState × List (Nat × Bool)
  | st, [] => (st, [])
  | st, n :: rest =>
    let st1 := applyTuneView st n
    let res := acceptTuneViewGo st1 rest
    if n = "stretched" then
      (res.1, (st1.blockIndex, st1._data.stretched) :: res.2)
    else
      res

/-- `_acceptTuneView`: reflect all three flags as image-holder modifier
classes and notify the host about the stretch state.  Returns the new
state together with the emitted `stretchBlock` calls. -/
def _acceptTuneView (st : ToolState) : ToolState × List (Nat × Bool) :=
  acceptTuneViewGo st tuneNames

/-- `_toggleTune`: negate the flag named by `tune` directly on the stored
record, then run `_acceptTuneView`. -/
def _toggleTune (st : ToolState) (t : String) : ToolState × List (Nat × Bool) :=
  _acceptTuneView { st with _data := setFlag st._data t (!(getFlag st._data t)) }

mutual
/-- A rendered DOM element: tag name, class list, `src` attribute,
`innerHTML`, children (in document order). -/
inductive Elem where
  | mk : String → List String → String → String → ElemList → Elem
/-- A list of sibling elements. -/
inductive ElemList where
  | nil : ElemList
  | cons : Elem → ElemList → ElemList
end

/-- Tag name of an element. -/
def Elem.tag : Elem → String
  | .mk t _ _ _ _ => t

/-- Class list of an element. -/
def Elem.classes : Elem → List String
  | .mk _ c _ _ _ => c

/-- `src` attribute of an element. -/
def Elem.src : Elem → String
  | .mk _ _ s _ _ => s

/-- `innerHTML` of an element. -/
def Elem.innerHTML : Elem → String
  | .mk _ _ _ i _ => i

/-- Children of an element. -/
def Elem.children : Elem → ElemList
  | .mk _ _ _ _ cs => cs

mutual
/-- `element.querySelector`: the first strict descendant, in document
(preorder) order, satisfying the selector predicate. -/
def qselFirst (p : Elem → Bool) : Elem → Option Elem
  | .mk _ _ _ _ cs => qselList p cs

/-- Preorder search over a sibling list: each element is checked before
its own subtree, each subtree before the following siblings. -/
def qselList (p : Elem → Bool) : ElemList → Option Elem
  | .nil => none
  | .cons e es =>
    if p e then some e
    else
      match qselFirst p e with
      | some r => some r
      | none => qselList p es
end

/-- `save(blockContent)`: query the first `img` descendant and the first
descendant carrying the input CSS class; with no image return the stored
data unchanged, otherwise decode the image's truthy `src`, read the
caption's `innerHTML` (empty when absent or empty), and `Object.assign`
the two fields into the stored record — which both returns the merged
record and overwrites the internal store. -/
def save (st : ToolState) (blockContent : Elem) : SimpleImageData × ToolState :=
  let image := qselFirst (fun e => e.tag == "img") blockContent
  let capEl := qselFirst (fun e => e.classes.contains st.css.input) blockContent
  match image with
  | none => (st._data, st)
  | some img =>
    let imageUrl := if img.src ≠ "" then decodeHTMLEntities img.src else ""
    let capHTML :=
      match capEl with
      | some cap => if cap.innerHTML ≠ "" then cap.innerHTML else ""
      | none => ""
    let nd := { st._data with url := imageUrl, caption := capHTML }
    (nd, { st with _data := nd })

/-- The observable shape of the subtree built by `render()`: wrapper
classes and children, image-holder children, image `src` and caption
`innerHTML`.  Children are named by their role. -/
structure RenderView where
  wrapperClasses : List String
  wrapperChildren : List String
  holderChildren : List String
  imageSrc : String
  captionHTML : String
deriving DecidableEq, Repr

/-- The events the rendered image can fire. -/
inductive ImgEvent where
  | load
  | error
deriving DecidableEq, Repr

/-- The subtree as `render()` returns it: the wrapper carries the base and
wrapper classes and holds only the loader; image and caption exist but are
detached. -/
def renderInit (css : CSSModel) (d : SimpleImageData) : RenderView :=
  { wrapperClasses := [css.baseClass, css.wrapper]
    wrapperChildren := ["loader"]
    holderChildren := []
    imageSrc := if d.url ≠ "" then d.url else ""
    captionHTML := if d.caption ≠ "" then d.caption else "" }

/-- The image callbacks wired by `render()`: `onload` removes the loading
class, appends the image to the holder, appends holder and caption to the
wrapper and removes the loader; `onerror` only logs to the console, so the
view is unchanged. -/
def renderStep (css : CSSModel) (v : RenderView) : ImgEvent → RenderView
  | .load =>
    { v with
      wrapperClasses := v.wrapperClasses.filter (fun x => x ≠ css.loading)
      holderChildren := v.holderChildren ++ ["image"]
      wrapperChildren :=
        (v.wrapperChildren ++ ["imageHolder", "caption"]).filter (fun x => x ≠ "loader") }
  | .error => v

/-- Lower-casing of a character list, for the case-insensitive `i` flag. -/
def lcl (l : List Char) : List Char := l.map Char.toLower

/-- The alternatives of the extension group `(gif|jpe?g|tiff|png|webp)`. -/
def imageExts : List (List Char) :=
  ["gif".toList, "jpg".toList, "jpeg".toList, "tiff".toList, "png".toList, "webp".toList]

/-- Whether a character list is one of the image extensions, up to case. -/
def isImageExt (e : List Char) : Bool := imageExts.contains (lcl e)

/-- The `\.(gif|jpe?g|tiff|png|webp)` piece: a dot followed by exactly one
of the extensions. -/
def dotExt : List Char → Bool
  | c :: e => c = '.' && isImageExt e
  | [] => false

/-- The `\S+\.(gif|jpe?g|tiff|png|webp)$` piece on the remainder `r`: some
split of `r` into a nonempty whitespace-free middle, a dot and an
extension reaching the end (the existential over splits is regex
backtracking). -/
def extTail (r : List Char) : Bool :=
  (List.range (r.length + 1)).any fun i =>
    decide (r.take i ≠ []) && (r.take i).all (fun c => !c.isWhitespace) && dotExt (r.drop i)

/-- Case-insensitive literal prefix stripping (the pattern is given in
lower case). -/
def stripPrefixCI : List Char → List Char → Option (List Char)
  | [], l => some l
  | _ :: _, [] => none
  | p :: ps, c :: cs => if c.toLower = p then stripPrefixCI ps cs else none

/-- A match of the whole pattern `https?:\/\/\S+\.(gif|jpe?g|tiff|png|webp)$`
starting at the head of `t` and reaching the end of `t`. -/
def coreMatch (t : List Char) : Bool :=
  (match stripPrefixCI ("http://".toList) t with
   | some r => extTail r
   | none => false) ||
  (match stripPrefixCI ("https://".toList) t with
   | some r => extTail r
   | none => false)

/-- `pasteConfig.patterns.image.test(text)`: the regex carries the end
anchor `$` but no start anchor, so a match may begin at any position. -/
def imagePatternTest (s : String) : Bool :=
  (List.range (s.toList.length + 1)).any fun i => coreMatch (s.toList.drop i)

/-- The pattern registered under `pasteConfig.patterns`. -/
def pasteConfigPattern : String → Bool := imagePatternTest

/-- The tags registered under `pasteConfig.tags`: the `img` tag with its
`src` attribute enabled. -/
def pasteConfigTags : List (String × Bool) := [("img", true)]

/-- The mime types registered under `pasteConfig.files`. -/
def pasteConfigFileMimeTypes : List String := ["image/*"]

/-- The claim's reading of a matching text, in the spec's words: an http
or https URL, matched case-insensitively, whose non-whitespace remainder
is nonempty and ends with a dot followed by one of the six extensions. -/
def SpecImageUrl (t : List Char) : Prop :=
  ∃ sch mid ext, t = sch ++ (mid ++ ('.' :: ext)) ∧
    (lcl sch = "http://".toList ∨ lcl sch = "https://".toList) ∧
    mid ≠ [] ∧ (∀ c ∈ mid, c.isWhitespace = false) ∧ lcl ext ∈ imageExts

/-! ### Shared concrete fixtures -/

/-- Representative host style strings. -/
def stylesDefault : ApiStyles := { block := "cdx-block", loader := "cdx-loader", input := "cdx-input" }

/-- The image element of the sample block below. -/
def img0 : Elem := .mk "img" [] "http://e.com/x&amp;y.png" "" .nil

/-- A sample rendered block: holder with an image, then a caption element
carrying the input class. -/
def bc0 : Elem := .mk "div" ["cdx-simple-image"] "" ""
  (.cons (.mk "div" ["cdx-simple-image__picture"] "" "" (.cons img0 .nil))
    (.cons (.mk "div" ["cdx-input", "cdx-simple-image__caption"] "" "My caption" .nil)
      .nil))

/-- A sample tool state built by the constructor. -/
def st0 : ToolState := construct
  { url := some "http://e.com/x&amp;y.png", caption := some "My caption",
    withBorder := none, withBackground := none, stretched := some true }
  0 stylesDefault false

/-- A rendered sample state for the tune claims: the image holder node
exists. -/
def stTune : ToolState :=
  { readOnly := false, blockIndex := 1,
    _data := { url := "http://e.com/a.png", caption := "cap", withBorder := false,
               withBackground := false, stretched := false },
    css := { baseClass := "cdx-block", loading := "cdx-loader", input := "cdx-input",
             wrapper := "cdx-simple-image", imageHolder := "cdx-simple-image__picture",
             caption := "cdx-simple-image__caption" },
    nodes := { imageHolderClasses := some ["cdx-simple-image__picture"],
               imageSrc := some "http://e.com/a.png", captionHTML := some "cap" } }

/-! ### Substitution lemmas -/

/-- A substitution whose pattern starts with an ampersand leaves an
ampersand-free subject unchanged. -/
lemma substFuel_amp_free (ps repl : List Char) :
    ∀ (fuel : Nat) (l : List Char), '&' ∉ l → substFuel '&' ps repl fuel l = l := by
  intro fuel
  induction fuel with
  | zero => intro l _; cases l <;> rfl
  | succ n ih =>
    intro l h
    cases l with
    | nil => rfl
    | cons c rest =>
      have hc : c ≠ '&' := fun hcc => h (hcc ▸ List.mem_cons_self c rest)
      have hpre : (('&' :: ps).isPrefixOf (c :: rest)) = false := by
        simp only [List.isPrefixOf, Bool.and_eq_false_iff]
        exact Or.inl (by simpa [beq_eq_false_iff_ne] using fun hh => hc hh.symm)
      have hrest : '&' ∉ rest := fun hm => h (List.mem_cons_of_mem c hm)
      simp only [substFuel, hpre, Bool.false_eq_true, if_false, ih rest hrest]

/-- `String.mk` is inverse to `String.toList`. -/
lemma String.mk_toList (s : String) : String.mk s.toList = s := rfl

/-- A replacement pass whose pattern starts with an ampersand leaves an
ampersand-free string unchanged. -/
lemma jsReplaceAll_amp_free (ps : List Char) (pat repl s : String)
    (hpat : pat.toList = '&' :: ps) (h : '&' ∉ s.toList) :
    jsReplaceAll pat repl s = s := by
  unfold jsReplaceAll
  rw [hpat]
  exact (congrArg String.mk (substFuel_amp_free ps repl.toList s.toList.length s.toList h)).trans
    (String.mk_toList s)

/-- `decodeHTMLEntities` is the identity on ampersand-free strings: all
five entity patterns start with an ampersand. -/
lemma decode_amp_free (s : String) (h : '&' ∉ s.toList) : decodeHTMLEntities s = s := by
  unfold decodeHTMLEntities
  by_cases hs : s = ""
  · simp [hs]
  · rw [if_neg hs,
      jsReplaceAll_amp_free ['a', 'm', 'p', ';'] _ _ _ rfl h,
      jsReplaceAll_amp_free ['l', 't', ';'] _ _ _ rfl h,
      jsReplaceAll_amp_free ['g', 't', ';'] _ _ _ rfl h,
      jsReplaceAll_amp_free ['q', 'u', 'o', 't', ';'] _ _ _ rfl h,
      jsReplaceAll_amp_free ['#', '0', '3', '9', ';'] _ _ _ rfl h]

/-! ### C2 -/

/-- C2: `decodeHTMLEntities` applies, in this fixed order, the global
substitutions amp, lt, gt, quot, and the apostrophe entity, and returns
the falsy (empty) input unchanged. -/
theorem decode_entities_substitution_chain (s : String) :
    decodeHTMLEntities s =
      jsReplaceAll "&#039;" apos
        (jsReplaceAll "&quot;" "\""
          (jsReplaceAll "&gt;" ">"
            (jsReplaceAll "&lt;" "<"
              (jsReplaceAll "&amp;" "&" s)))) ∧
    decodeHTMLEntities "" = "" := by
  constructor
  · by_cases h : s = ""
    · subst h; rfl
    · simp [decodeHTMLEntities, h]
  · rfl

/-! ### C9 -/

/-- C9 counterexample: a second decoding pass decodes a double-encoded
ampersand entity further, so `decodeHTMLEntities` is not idempotent. -/
theorem decode_not_idempotent :
    decodeHTMLEntities (decodeHTMLEntities "&amp;amp;") ≠ decodeHTMLEntities "&amp;amp;" := by
  decide

/-- C9 (amended): `decodeHTMLEntities` is idempotent on every string with
no ampersand character, where it acts as the identity. -/
theorem decode_idempotent_no_ampersand (s : String) (h : '&' ∉ s.toList) :
    decodeHTMLEntities (decodeHTMLEntities s) = decodeHTMLEntities s := by
  rw [decode_amp_free s h]
  exact decode_amp_free s h

/-- C9 witness: a concrete ampersand-free string. -/
theorem decode_idempotent_no_ampersand_witness :
    decodeHTMLEntities (decodeHTMLEntities "hello") = decodeHTMLEntities "hello" :=
  decode_idempotent_no_ampersand "hello" (by decide)

/-! ### C3 -/

/-- C3: the image-tag, pattern and file paste variants all assign through
the `data` setter — the first two a record whose url is the decoded
source, the third the record resolved by `onDropHandler` — and any other
event type leaves the state unchanged. -/
theorem onPaste_funnels_into_data_setter (st : ToolState) (src text : String) (f : FileModel) :
    onPaste st (.tag (.img src)) =
      setData st { url := some (decodeHTMLEntities src), caption := none,
                   withBorder := none, withBackground := none, stretched := none } ∧
    onPaste st (.pattern text) =
      setData st { url := some (decodeHTMLEntities text), caption := none,
                   withBorder := none, withBackground := none, stretched := none } ∧
    onPaste st (.file f) = setData st (onDropHandler f) ∧
    onPaste st .otherEvent = st :=
  ⟨rfl, rfl, rfl, rfl⟩

/-! ### C4 -/

/-- C4 counterexample: pasting or dropping a file does not only set the
url — it also overwrites the caption with the file name. -/
theorem onPaste_file_changes_caption :
    (onPaste st0 (.file { name := "photo.png", dataUrl := "data:image/png;base64,AAAA" }))._data.caption
      ≠ st0._data.caption := by
  decide

/-- C4 (amended): the pasted-tag and pasted-pattern branches change only
the url field of the data record; the pasted/dropped-file branch changes
url and caption, setting caption to the file's name; the three display
flags keep their prior values in every branch. -/
theorem paste_branch_field_effects (st : ToolState) (src text : String) (f : FileModel) :
    ((onPaste st (.tag (.img src)))._data.caption = st._data.caption ∧
     (onPaste st (.tag (.img src)))._data.withBorder = st._data.withBorder ∧
     (onPaste st (.tag (.img src)))._data.withBackground = st._data.withBackground ∧
     (onPaste st (.tag (.img src)))._data.stretched = st._data.stretched) ∧
    ((onPaste st (.pattern text))._data.caption = st._data.caption ∧
     (onPaste st (.pattern text))._data.withBorder = st._data.withBorder ∧
     (onPaste st (.pattern text))._data.withBackground = st._data.withBackground ∧
     (onPaste st (.pattern text))._data.stretched = st._data.stretched) ∧
    ((onPaste st (.file f))._data.caption = f.name ∧
     (onPaste st (.file f))._data.withBorder = st._data.withBorder ∧
     (onPaste st (.file f))._data.withBackground = st._data.withBackground ∧
     (onPaste st (.file f))._data.stretched = st._data.stretched) := by
  refine ⟨?_, ?_, ?_⟩ <;>
    · simp only [onPaste, setData, onDropHandler]
      split <;> simp

/-! ### C5 -/

/-- C5 counterexample: the constructor stores the decoded url, not the
given one: a truthy url containing an entity is changed by the `data`
setter. -/
theorem construct_url_not_raw :
    (construct { url := some "&amp;", caption := none, withBorder := none,
                 withBackground := none, stretched := none }
        0 stylesDefault false)._data.url = "&" ∧
    ("&" : String) ≠ "&amp;" := by
  decide

/-- C5 (amended): the constructor merges defaults for the five optional
fields — the stored url is the decoding of `data.url` when truthy and
empty otherwise (the `data` setter decodes before storing), the caption
is `data.caption` when truthy and empty otherwise, and each flag is the
given value when defined and `false` when undefined. -/
theorem construct_merges_defaults (inp : InputData) (idx : Nat) (styles : ApiStyles) (ro : Bool) :
    (construct inp idx styles ro)._data.url =
      (match inp.url with
       | some u => if u ≠ "" then decodeHTMLEntities u else ""
       | none => "") ∧
    (construct inp idx styles ro)._data.caption =
      (match inp.caption with
       | some c => if c ≠ "" then c else ""
       | none => "") ∧
    (construct inp idx styles ro)._data.withBorder = inp.withBorder.getD false ∧
    (construct inp idx styles ro)._data.withBackground = inp.withBackground.getD false ∧
    (construct inp idx styles ro)._data.stretched = inp.stretched.getD false := by
  refine ⟨?_, ?_, ?_, ?_, ?_⟩ <;>
    · simp only [construct, setData, jsOrEmpty]
      split <;> simp_all <;> split <;> simp_all

/-! ### C1 -/

/-- C1: with an `img` descendant present, `save` returns a record whose
url is the decoding of the image's truthy `src` (empty when the `src` is
empty) and whose caption is the `innerHTML` of the first descendant with
the input CSS class (empty when that element is absent or empty); with no
`img` descendant, `save` returns the currently stored data and leaves the
state unchanged. -/
theorem save_reads_rendered_dom (st : ToolState) (bc : Elem) :
    (∀ img, qselFirst (fun e => e.tag == "img") bc = some img →
      (save st bc).1.url = (if img.src ≠ "" then decodeHTMLEntities img.src else "") ∧
      (save st bc).1.caption =
        (match qselFirst (fun e => e.classes.contains st.css.input) bc with
         | some cap => if cap.innerHTML ≠ "" then cap.innerHTML else ""
         | none => "")) ∧
    (qselFirst (fun e => e.tag == "img") bc = none →
      (save st bc).1 = st._data ∧ (save st bc).2 = st) := by
  constructor
  · intro img h
    simp [save, h]
  · intro h
    simp [save, h]

/-- C1 witness: the sample block saves the decoded image url and the
caption element's `innerHTML`. -/
theorem save_reads_rendered_dom_witness :
    (save st0 bc0).1.url = decodeHTMLEntities "http://e.com/x&amp;y.png" ∧
    (save st0 bc0).1.caption = "My caption" := by
  have h := (save_reads_rendered_dom st0 bc0).1 img0 (by rfl)
  exact ⟨h.1.trans (by decide), h.2.trans (by decide)⟩

/-! ### C10 -/

/-- C10: with an `img` descendant present, `save` overwrites the tool's
internal store with the returned record, so the `data` getter afterwards
reads the saved record. -/
theorem save_updates_stored_data (st : ToolState) (bc : Elem) (img : Elem)
    (h : qselFirst (fun e => e.tag == "img") bc = some img) :
    getData (save st bc).2 = (save st bc).1 := by
  simp only [save, getData, h]

/-- C10 witness: the sample block's saved record equals the stored one. -/
theorem save_updates_stored_data_witness :
    getData (save st0 bc0).2 = (save st0 bc0).1 :=
  save_updates_stored_data st0 bc0 img0 (by rfl)

/-! ### C6 -/

/-- After `classList.toggle(c, force)` the token `c` is present exactly
when `force` is true. -/
lemma mem_toggleClass_self (cs : List String) (c : String) (f : Bool) :
    c ∈ toggleClass cs c f ↔ f = true := by
  cases f with
  | false => simp [toggleClass]
  | true => by_cases h : c ∈ cs <;> simp [toggleClass, h]

/-- `classList.toggle(c, force)` does not affect the presence of any
other token. -/
lemma mem_toggleClass_other (cs : List String) (c c' : String) (f : Bool) (h : c' ≠ c) :
    c' ∈ toggleClass cs c f ↔ c' ∈ cs := by
  cases f with
  | false => simp [toggleClass, List.mem_filter, h]
  | true => by_cases hm : c ∈ cs <;> simp [toggleClass, hm, h]

/-- C6: for each tune name, `_toggleTune` negates that flag and only that
flag (url and caption are also untouched); afterwards each of the three
image-holder modifier classes is present exactly when its flag is true,
and exactly one `stretchBlock(blockIndex, stretched)` call is made, with
the post-toggle stretched flag. -/
theorem toggleTune_spec (st : ToolState) (t : String) (cs : List String)
    (ht : t = "withBorder" ∨ t = "stretched" ∨ t = "withBackground")
    (hcs : st.nodes.imageHolderClasses = some cs)
    (hih : st.css.imageHolder = "cdx-simple-image__picture") :
    getFlag (_toggleTune st t).1._data t = !(getFlag st._data t) ∧
    (_toggleTune st t).1._data.url = st._data.url ∧
    (_toggleTune st t).1._data.caption = st._data.caption ∧
    (∀ n, (n = "withBorder" ∨ n = "stretched" ∨ n = "withBackground") → n ≠ t →
      getFlag (_toggleTune st t).1._data n = getFlag st._data n) ∧
    (∃ cs', (_toggleTune st t).1.nodes.imageHolderClasses = some cs' ∧
      ∀ n, (n = "withBorder" ∨ n = "stretched" ∨ n = "withBackground") →
        (("cdx-simple-image__picture--" ++ camelToKebab n) ∈ cs' ↔
          getFlag (_toggleTune st t).1._data n = true)) ∧
    (_toggleTune st t).2 = [(st.blockIndex, (_toggleTune st t).1._data.stretched)] := by
  have h12 : ("cdx-simple-image__picture--" ++ camelToKebab "withBorder")
      ≠ ("cdx-simple-image__picture--" ++ camelToKebab "stretched") := by decide
  have h13 : ("cdx-simple-image__picture--" ++ camelToKebab "withBorder")
      ≠ ("cdx-simple-image__picture--" ++ camelToKebab "withBackground") := by decide
  have h23 : ("cdx-simple-image__picture--" ++ camelToKebab "stretched")
      ≠ ("cdx-simple-image__picture--" ++ camelToKebab "withBackground") := by decide
  have happ : ∀ n : String, st.css.imageHolder ++ "--" ++ camelToKebab n
      = "cdx-simple-image__picture--" ++ camelToKebab n := by
    intro n; rw [hih]; rfl
  rcases ht with h | h | h <;> subst h <;>
    simp only [_toggleTune, _acceptTuneView, tuneNames, acceptTuneViewGo, applyTuneView,
      hcs, happ, String.reduceEq, reduceIte] <;>
    refine ⟨by simp [getFlag, setFlag], by simp [setFlag], by simp [setFlag], ?_, ?_, by trivial⟩ <;>
    first
      | (rintro n (rfl | rfl | rfl) hne <;>
          first
            | exact absurd rfl hne
            | simp [getFlag, setFlag])
      | (refine ⟨_, rfl, ?_⟩
         rintro n (rfl | rfl | rfl)
         · rw [mem_toggleClass_other _ _ _ _ h13, mem_toggleClass_other _ _ _ _ h12,
             mem_toggleClass_self]
         · rw [mem_toggleClass_other _ _ _ _ h23, mem_toggleClass_self]
         · rw [mem_toggleClass_self])

/-- C6 witness: toggling the stretched tune on a rendered sample state. -/
theorem toggleTune_spec_witness :
    getFlag (_toggleTune stTune "stretched").1._data "stretched"
      = !(getFlag stTune._data "stretched") :=
  (toggleTune_spec stTune "stretched" ["cdx-simple-image__picture"]
    (Or.inr (Or.inl rfl)) rfl rfl).1

/-- `dotExt` holds exactly on a dot followed by one of the extensions. -/
lemma dotExt_iff (l : List Char) :
    dotExt l = true ↔ ∃ e, l = '.' :: e ∧ lcl e ∈ imageExts := by
  cases l with
  | nil => simp [dotExt]
  | cons c e =>
    simp only [dotExt, Bool.and_eq_true, decide_eq_true_eq, isImageExt, List.elem_iff]
    constructor
    · rintro ⟨rfl, h⟩
      exact ⟨e, rfl, by simpa using h⟩
    · rintro ⟨e', he, h⟩
      cases he
      exact ⟨rfl, by simpa using h⟩

/-- `extTail` holds exactly when the remainder splits into a nonempty
whitespace-free middle, a dot and an extension. -/
lemma extTail_iff (r : List Char) :
    extTail r = true ↔ ∃ mid ext, r = mid ++ ('.' :: ext) ∧ mid ≠ [] ∧
      (∀ c ∈ mid, c.isWhitespace = false) ∧ lcl ext ∈ imageExts := by
  unfold extTail
  rw [List.any_eq_true]
  constructor
  · rintro ⟨i, hi, hcond⟩
    rw [Bool.and_eq_true, Bool.and_eq_true] at hcond
    obtain ⟨⟨hne, hall⟩, hdot⟩ := hcond
    obtain ⟨e, he, hext⟩ := (dotExt_iff _).1 hdot
    refine ⟨r.take i, e, ?_, of_decide_eq_true hne, ?_, hext⟩
    · rw [← he]; exact (List.take_append_drop i r).symm
    · intro c hc
      have h2 := List.all_eq_true.1 hall c hc
      simpa using h2
  · rintro ⟨mid, ext, rfl, hne, hall, hext⟩
    refine ⟨mid.length, ?_, ?_⟩
    · rw [List.mem_range, List.length_append]
      simp only [List.length_cons]
      omega
    · rw [List.take_left, List.drop_left, Bool.and_eq_true, Bool.and_eq_true]
      refine ⟨⟨decide_eq_true hne, ?_⟩, ?_⟩
      · rw [List.all_eq_true]; intro c hc; simpa using hall c hc
      · exact (dotExt_iff _).2 ⟨ext, rfl, hext⟩

/-- A successful case-insensitive strip exhibits a prefix whose
lower-casing is the pattern. -/
lemma stripPrefixCI_some : ∀ (pat l r : List Char), stripPrefixCI pat l = some r →
    ∃ pre, l = pre ++ r ∧ lcl pre = pat := by
  intro pat
  induction pat with
  | nil =>
    intro l r h
    have hl : l = r := by simpa [stripPrefixCI] using h
    subst hl
    exact ⟨[], rfl, rfl⟩
  | cons p ps ih =>
    intro l r h
    cases l with
    | nil => simp [stripPrefixCI] at h
    | cons c cs =>
      rw [stripPrefixCI] at h
      by_cases hc : c.toLower = p
      · rw [if_pos hc] at h
        obtain ⟨pre, hpre, hl⟩ := ih cs r h
        refine ⟨c :: pre, by simp [hpre], ?_⟩
        simp only [lcl, List.map] at hl ⊢
        rw [hc, hl]
      · rw [if_neg hc] at h
        exact absurd h (by simp)

/-- Conversely, prepending a prefix whose lower-casing is the pattern
makes the strip succeed. -/
lemma stripPrefixCI_of_append : ∀ (pre r : List Char), stripPrefixCI (lcl pre) (pre ++ r) = some r := by
  intro pre
  induction pre with
  | nil => intro r; rfl
  | cons c cs ih =>
    intro r
    show stripPrefixCI (c.toLower :: lcl cs) (c :: (cs ++ r)) = some r
    rw [stripPrefixCI, if_pos rfl]
    exact ih r

/-- The executable anchored matcher agrees with the declarative reading of
the pattern. -/
lemma coreMatch_iff (t : List Char) : coreMatch t = true ↔ SpecImageUrl t := by
  unfold coreMatch
  rw [Bool.or_eq_true]
  constructor
  · rintro (h | h)
    · cases hs : stripPrefixCI ("http://".toList) t with
      | none => rw [hs] at h; simp at h
      | some r =>
        rw [hs] at h
        obtain ⟨pre, rfl, hpre⟩ := stripPrefixCI_some _ _ _ hs
        obtain ⟨mid, ext, hr, hne, hall, hext⟩ := (extTail_iff r).1 h
        exact ⟨pre, mid, ext, by rw [hr], Or.inl hpre, hne, hall, hext⟩
    · cases hs : stripPrefixCI ("https://".toList) t with
      | none => rw [hs] at h; simp at h
      | some r =>
        rw [hs] at h
        obtain ⟨pre, rfl, hpre⟩ := stripPrefixCI_some _ _ _ hs
        obtain ⟨mid, ext, hr, hne, hall, hext⟩ := (extTail_iff r).1 h
        exact ⟨pre, mid, ext, by rw [hr], Or.inr hpre, hne, hall, hext⟩
  · rintro ⟨sch, mid, ext, rfl, hsch | hsch, hne, hall, hext⟩
    · refine Or.inl ?_
      have hstrip := stripPrefixCI_of_append sch (mid ++ '.' :: ext)
      rw [hsch] at hstrip
      rw [hstrip]
      exact (extTail_iff _).2 ⟨mid, ext, rfl, hne, hall, hext⟩
    · refine Or.inr ?_
      have hstrip := stripPrefixCI_of_append sch (mid ++ '.' :: ext)
      rw [hsch] at hstrip
      rw [hstrip]
      exact (extTail_iff _).2 ⟨mid, ext, rfl, hne, hall, hext⟩

/-! ### C7 -/

/-- C7 (amended): the registered paste pattern accepts a text exactly when
some suffix of it is an http or https URL (matched case-insensitively)
whose non-whitespace remainder ends with a dot followed by one of the six
image extensions — the regex is anchored only at the end of the text;
`pasteConfig` also registers the `img` tag with its `src` attribute and
the `image/*` mime family. -/
theorem pasteConfig_pattern_spec (s : String) :
    (pasteConfigPattern s = true ↔ ∃ suf, suf <:+ s.toList ∧ SpecImageUrl suf) ∧
    pasteConfigTags = [("img", true)] ∧
    pasteConfigFileMimeTypes = ["image/*"] := by
  refine ⟨?_, rfl, rfl⟩
  unfold pasteConfigPattern imagePatternTest
  rw [List.any_eq_true]
  constructor
  · rintro ⟨i, hi, h⟩
    exact ⟨s.toList.drop i, List.drop_suffix i s.toList, (coreMatch_iff _).1 h⟩
  · rintro ⟨suf, ⟨pre, hpre⟩, hspec⟩
    refine ⟨pre.length, ?_, ?_⟩
    · rw [List.mem_range]
      have : pre.length + suf.length = s.toList.length := by
        rw [← hpre, List.length_append]
      omega
    · rw [← hpre, List.drop_left]
      exact (coreMatch_iff _).2 hspec

/-- C7 counterexample: the pattern is not anchored at the start, so it
also matches a pasted text that is not itself an image URL (here one with
leading prose). -/
theorem pattern_not_whole_string_anchored :
    pasteConfigPattern "see https://a.png" = true ∧
    ¬ SpecImageUrl ("see https://a.png".toList) := by
  constructor
  · decide
  · intro h
    exact absurd ((coreMatch_iff _).2 h) (by decide)


/-! ### C8 -/

/-- Error-only event traces leave the rendered view unchanged. -/
lemma renderSteps_no_load (css : CSSModel) :
    ∀ (evs : List ImgEvent) (v : RenderView), ImgEvent.load ∉ evs →
      List.foldl (renderStep css) v evs = v := by
  intro evs
  induction evs with
  | nil => intro v _; rfl
  | cons e rest ih =>
    intro v h
    cases e with
    | load => exact absurd (List.mem_cons_self _ _) h
    | error =>
      have hr : ImgEvent.load ∉ rest := fun hm => h (List.mem_cons_of_mem _ hm)
      simp only [List.foldl_cons, renderStep]
      exact ih v hr

/-- C8: the wrapper returned by `render()` initially holds only the
loader; any event trace without a load keeps it that way (in particular a
load error changes nothing), and the load event alone swaps the loader
for the image holder and the caption. -/
theorem render_loading_transition (css : CSSModel) (d : SimpleImageData) (evs : List ImgEvent)
    (h : ImgEvent.load ∉ evs) :
    (renderInit css d).wrapperChildren = ["loader"] ∧
    List.foldl (renderStep css) (renderInit css d) evs = renderInit css d ∧
    (∀ v, renderStep css v .error = v) ∧
    (renderStep css (renderInit css d) .load).wrapperChildren = ["imageHolder", "caption"] := by
  refine ⟨rfl, renderSteps_no_load css evs (renderInit css d) h, fun v => rfl, ?_⟩
  simp [renderStep, renderInit]

/-- C8 witness: a trace consisting of one error event. -/
theorem render_loading_transition_witness :
    List.foldl (renderStep stTune.css) (renderInit stTune.css stTune._data) [ImgEvent.error]
      = renderInit stTune.css stTune._data :=
  (render_loading_transition stTune.css stTune._data [ImgEvent.error] (by decide)).2.1
